import Mathlib

/-!
Verification of the real-time location sharing core of Geo-app.

The development shallowly embeds the state-manipulating handlers of
`src/components/map/MapComponent.tsx`, `src/components/room/RoomManager.tsx`
and `src/app/dashboard/page.tsx` as pure Lean functions over explicit record
lists and proves or refutes the specification claims about them.

Modelling conventions:
* Supabase rows become Lean structures; the ISO `timestamp` strings (always
  compared chronologically through `new Date`) become naturals; coordinates
  are only ever stored and copied, never computed with, so they become
  integers; ids and codes stay strings.
* Store mutations (insert, delete, update) act on the in-memory record
  lists; transport failures (store unreachable) are outside the embedding,
  so the modelled store operations always succeed.
* JavaScript string falsiness (`if (!x)`) is the test for the empty string;
  `null`/`undefined` values of optional parameters become `Option`.
* `String.trim`/`String.toUpper` do not reduce inside the Lean kernel, so
  the JavaScript `.trim()` and `.toUpperCase()` are modelled by the
  equivalent character-list operations `jsTrim` and `jsToUpper`.
-/

namespace GeoApp

/-- Location record, as written to and read from the `locations` table by `dashboard/page.tsx` and `MapComponent.tsx`; `name`/`description` are only set on custom-marker rows. -/
structure Location where
  id : String
  room_id : String
  user_id : String
  user_name : String
  latitude : Int
  longitude : Int
  timestamp : Nat
  is_custom_marker : Bool
  name : Option String := none
  description : Option String := none
deriving DecidableEq

/-- Room row of the `rooms` table (`RoomManager.tsx`); `created_at` is assigned by the store and never read by the embedded handlers, so it is omitted. -/
structure Room where
  id : String
  name : String
  code : String
  created_by : String
deriving DecidableEq

/-- Membership row of the `room_members` table (`RoomManager.tsx`). -/
structure Membership where
  room_id : String
  user_id : String
deriving DecidableEq

/-- The record store backing the handlers: the `rooms`, `room_members` and `locations` tables. -/
structure DB where
  rooms : List Room
  memberships : List Membership
  locations : List Location
deriving DecidableEq

/-- One step of the `reduce` computing `filteredLocations` (`MapComponent.tsx` lines 134-147).  A custom marker is pushed unchanged; for a live-position record the accumulator is searched for the first entry with the same `user_id` (the search does not exclude custom markers), and the incoming record is pushed only when no entry was found or the found entry has a strictly smaller timestamp, in which case every same-user entry (custom markers included) is first filtered out. -/
def dedupStep (acc : List Location) (location : Location) : List Location :=
  if location.is_custom_marker then
    acc ++ [location]
  else
    match acc.find? (fun loc => loc.user_id == location.user_id) with
    | none => acc ++ [location]
    | some existingLocation =>
        if existingLocation.timestamp < location.timestamp then
          acc.filter (fun loc => loc.user_id != location.user_id) ++ [location]
        else
          acc

/-- The dedup/projection engine: `filteredLocations` of `MapComponent.tsx` lines 134-147, a left fold of `dedupStep` over the raw record list starting from the empty accumulator. -/
def filteredLocations (locations : List Location) : List Location :=
  locations.foldl dedupStep []

/-- The `acc.find(loc => loc.user_id === u)` search used by `dedupStep`. -/
def userFind (acc : List Location) (u : String) : Option Location :=
  acc.find? (fun a => a.user_id == u)

/-- The visible set contains at most one live-position (non-custom) record per `user_id`. -/
abbrev atMostOneLivePerUser (l : List Location) : Prop :=
  l.Pairwise (fun a b =>
    a.is_custom_marker = false → b.is_custom_marker = false → a.user_id ≠ b.user_id)

/-- Invariant of the `dedupStep` fold relating the processed prefix of the input to the accumulator: the accumulator is drawn from the prefix, holds at most one live record per user, a live record in it is the first entry for its user, any found first entry dominates the timestamps of the processed live records of that user, and every user with a processed live record has a first entry. -/
structure DedupInv (processed acc : List Location) : Prop where
  sub : ∀ a ∈ acc, a ∈ processed
  uniq : atMostOneLivePerUser acc
  firstOfLive : ∀ a ∈ acc, a.is_custom_marker = false → userFind acc a.user_id = some a
  maxOfFound : ∀ u f, userFind acc u = some f →
      ∀ r ∈ processed, r.is_custom_marker = false → r.user_id = u →
        r.timestamp ≤ f.timestamp
  coversLive : ∀ u, (∃ r ∈ processed, r.is_custom_marker = false ∧ r.user_id = u) →
      (userFind acc u).isSome

/-- No user owns records of both kinds (custom marker and live position). -/
abbrev kindsSeparated (xs : List Location) : Prop :=
  ∀ a ∈ xs, ∀ b ∈ xs, a.user_id = b.user_id → a.is_custom_marker = b.is_custom_marker

/-- Distinct live-position records of one user never carry equal timestamps. -/
abbrev liveTimesInjective (xs : List Location) : Prop :=
  ∀ a ∈ xs, ∀ b ∈ xs, a.is_custom_marker = false → b.is_custom_marker = false →
    a.user_id = b.user_id → a.timestamp = b.timestamp → a = b

/-- Order-free description of the visible marker set: every custom marker, plus each live record that strictly dominates every other same-user live record. -/
abbrev visibleIn (xs : List Location) (r : Location) : Prop :=
  r ∈ xs ∧ (r.is_custom_marker = true ∨
    (r.is_custom_marker = false ∧
      ∀ s ∈ xs, s.is_custom_marker = false → s.user_id = r.user_id → s ≠ r →
        s.timestamp < r.timestamp))

/-- Models the JavaScript `.trim()` used by the handlers (strip leading and trailing whitespace); `String.trim` itself does not reduce in the kernel. -/
def jsTrim (s : String) : String :=
  ⟨((s.data.dropWhile Char.isWhitespace).reverse.dropWhile Char.isWhitespace).reverse⟩

/-- Models the JavaScript `.toUpperCase()` (per-character uppercasing). -/
def jsToUpper (s : String) : String :=
  ⟨s.data.map Char.toUpper⟩

/-- The base-36 digits produced by `Number.prototype.toString(36)`. -/
def base36Chars : List Char := "0123456789abcdefghijklmnopqrstuvwxyz".data

/-- The uppercase alphanumeric alphabet `[A-Z0-9]`. -/
def upperCodeChars : List Char := "0123456789ABCDEFGHIJKLMNOPQRSTUVWXYZ".data

/-- Models `Math.random().toString(36)`: a random value `0.d1d2...` prints as `"0."` followed by its (shortest round-trip, possibly fewer than six) base-36 fraction digits, or as `"0"` when the value is exactly zero.  The digit list is the random input of the embedding. -/
def randomToString36 (digits : List Char) : List Char :=
  if digits = [] then ['0'] else '0' :: '.' :: digits

/-- `generateRoomCode`/the inline code generation of `RoomManager.tsx` (lines 85-87 and 100): `Math.random().toString(36).substring(2, 8).toUpperCase()`; `substring(2, 8)` is drop 2 then take 6. -/
def generateRoomCode (digits : List Char) : List Char :=
  (((randomToString36 digits).drop 2).take 6).map Char.toUpper

/-- Outcome of `handleCreateRoom`: `validation` when the name is empty (`setError` with a message), `conflict` when the insert fails the `code` uniqueness enforced by the store (`setError` with the store message), or the created room. -/
inductive CreateRoomResult
  | validation
  | conflict
  | created (room : Room)
deriving DecidableEq

/-- `handleCreateRoom` of `RoomManager.tsx` lines 89-123: reject an empty (all-whitespace) name, generate one code from the random digits, insert the room {name, code, created_by}; a uniqueness violation of `code` surfaces as an error with no regeneration or retry.  The store-assigned row id is the `newId` parameter. -/
def handleCreateRoom (db : DB) (roomName userId : String) (digits : List Char)
    (newId : String) : DB × CreateRoomResult :=
  if jsTrim roomName = "" then (db, .validation)
  else
    let code : String := ⟨generateRoomCode digits⟩
    if db.rooms.any (fun r => r.code == code) then (db, .conflict)
    else
      let room : Room := { id := newId, name := roomName, code := code, created_by := userId }
      ({ db with rooms := db.rooms ++ [room] }, .created room)

/-- Outcome of `handleJoinRoom`: `validation` for an empty code, `notFound` when `.single()` does not deliver exactly one room, or the joined room. -/
inductive JoinRoomResult
  | validation
  | notFound
  | joined (room : Room)
deriving DecidableEq

/-- `handleJoinRoom` of `RoomManager.tsx` lines 125-169: reject an empty code, look the room up by uppercased code (`.single()` succeeds only when exactly one row matches), then unconditionally insert a `room_members` row; there is no conflict handling for an existing membership. -/
def handleJoinRoom (db : DB) (roomCode userId : String) : DB × JoinRoomResult :=
  if jsTrim roomCode = "" then (db, .validation)
  else
    match db.rooms.filter (fun r => r.code == jsToUpper roomCode) with
    | [room] =>
        ({ db with memberships := db.memberships ++ [{ room_id := room.id, user_id := userId }] },
          .joined room)
    | _ => (db, .notFound)

/-- Outcome of `handleDeleteRoom`: the guard `if (!targetRoomId || !userId) return` produces a silent no-op; otherwise the deletion runs. -/
inductive DeleteRoomResult
  | silentNoop
  | deleted
deriving DecidableEq

/-- `handleDeleteRoom` of `RoomManager.tsx` lines 171-208: resolve `roomId || currentRoom?.id`, silently return when the target room id or the user id is missing, then delete all locations of the room and the room itself.  The requester `userId` is never compared with `created_by`, and `room_members` rows are never deleted. -/
def handleDeleteRoom (db : DB) (roomId? currentRoomId? : Option String) (userId : String) :
    DB × DeleteRoomResult :=
  let targetRoomId? : Option String :=
    match roomId? with
    | some rid => if rid = "" then currentRoomId? else some rid
    | none => currentRoomId?
  match targetRoomId? with
  | none => (db, .silentNoop)
  | some rid =>
      if rid = "" ∨ userId = "" then (db, .silentNoop)
      else
        ({ db with
            locations := db.locations.filter (fun l => l.room_id != rid),
            rooms := db.rooms.filter (fun r => r.id != rid) },
          .deleted)

/-- Outcome of `handleAddMarker`: the guard `if (!newMarker || !markerName.trim()) return` produces a silent no-op; otherwise the marker row is inserted. -/
inductive AddMarkerResult
  | silentNoop
  | added (loc : Location)
deriving DecidableEq

/-- `handleAddMarker` of `MapComponent.tsx` lines 83-114: silently return unless a position was clicked and the name is non-empty, then insert a custom-marker location row. -/
def handleAddMarker (db : DB) (roomId userId userName : String)
    (newMarker : Option (Int × Int)) (markerName markerDescription : String)
    (newId : String) (now : Nat) : DB × AddMarkerResult :=
  match newMarker with
  | none => (db, .silentNoop)
  | some (lat, lng) =>
      if jsTrim markerName = "" then (db, .silentNoop)
      else
        let loc : Location :=
          { id := newId, room_id := roomId, user_id := userId, user_name := userName,
            latitude := lat, longitude := lng, timestamp := now, is_custom_marker := true,
            name := some markerName, description := some markerDescription }
        ({ db with locations := db.locations ++ [loc] }, .added loc)

/-- Outcome of `updateLocation`: silent no-op when no user or room is active (only `console.error`), otherwise the inserted row. -/
inductive UpdateLocationResult
  | silentNoop
  | inserted (loc : Location)
deriving DecidableEq

/-- `updateLocation` of `dashboard/page.tsx` lines 73-100: always inserts a fresh live-position row (`is_custom_marker` left to the column default `false`); it never updates an existing row. -/
def updateLocation (db : DB) (userId currentRoomId userName : String)
    (lat lng : Int) (now : Nat) (newId : String) : DB × UpdateLocationResult :=
  if userId = "" ∨ currentRoomId = "" then (db, .silentNoop)
  else
    let loc : Location :=
      { id := newId, room_id := currentRoomId, user_id := userId, user_name := userName,
        latitude := lat, longitude := lng, timestamp := now, is_custom_marker := false }
    ({ db with locations := db.locations ++ [loc] }, .inserted loc)

/-- The live-position rows stored for `(roomId, userId)` - the query `room_id = eq, user_id = eq, is_custom_marker = false` of the position reporter. -/
def liveRowsFor (db : DB) (roomId userId : String) : List Location :=
  db.locations.filter
    (fun l => l.room_id == roomId && l.user_id == userId && l.is_custom_marker == false)

/-- The geolocation watcher callback of `dashboard/page.tsx` lines 158-221: select the existing live row for `(roomId, userId)` with `.single()` (which only succeeds on exactly one row; on zero or several rows the error is ignored and the data is null), then update that row in place, or insert a new row. -/
def reporterStep (db : DB) (roomId userId userName : String) (lat lng : Int) (now : Nat)
    (newId : String) : DB :=
  match liveRowsFor db roomId userId with
  | [existing] =>
      { db with
          locations := db.locations.map (fun l =>
            if l.id == existing.id then
              { l with latitude := lat, longitude := lng, timestamp := now }
            else l) }
  | _ =>
      { db with
          locations := db.locations ++
            [{ id := newId, room_id := roomId, user_id := userId, user_name := userName,
               latitude := lat, longitude := lng, timestamp := now,
               is_custom_marker := false }] }
/-- Sample live-position records of one user for the claim C1 witness. -/
def liveU1t5 : Location :=
  { id := "w1", room_id := "r1", user_id := "u1", user_name := "A",
    latitude := 1, longitude := 1, timestamp := 5, is_custom_marker := false }

def liveU1t9 : Location :=
  { id := "w2", room_id := "r1", user_id := "u1", user_name := "A",
    latitude := 2, longitude := 2, timestamp := 9, is_custom_marker := false }

/-- Custom marker of user u1 (for claim C2): written before the user reports a
newer live position. -/
def customC2 : Location :=
  { id := "c2m", room_id := "r1", user_id := "u1", user_name := "B",
    latitude := 3, longitude := 4, timestamp := 1, is_custom_marker := true,
    name := some "Cafe", description := some "" }

def liveC2 : Location :=
  { id := "c2p", room_id := "r1", user_id := "u1", user_name := "B",
    latitude := 5, longitude := 6, timestamp := 2, is_custom_marker := false }

/-- Records of one user with mixed kinds (for claim C3): the projection of the
two orders differs. -/
def liveC3 : Location :=
  { id := "c3p", room_id := "r1", user_id := "u1", user_name := "B",
    latitude := 7, longitude := 8, timestamp := 5, is_custom_marker := false }

def customC3 : Location :=
  { id := "c3m", room_id := "r1", user_id := "u1", user_name := "B",
    latitude := 9, longitude := 9, timestamp := 10, is_custom_marker := true,
    name := some "Cafe", description := some "" }

/-- Two live records of distinct users (witness data for the amended claim C3). -/
def permLiveA : Location :=
  { id := "pa", room_id := "r1", user_id := "ua", user_name := "A",
    latitude := 40, longitude := -3, timestamp := 5, is_custom_marker := false }

def permLiveB : Location :=
  { id := "pb", room_id := "r1", user_id := "ub", user_name := "B",
    latitude := 41, longitude := -4, timestamp := 7, is_custom_marker := false }

/-- Custom marker with a high timestamp (for claim C4): it blocks all later live
reports of its user. -/
def customC4 : Location :=
  { id := "c4m", room_id := "r1", user_id := "u1", user_name := "A",
    latitude := 1, longitude := 1, timestamp := 10, is_custom_marker := true,
    name := some "Cafe", description := some "" }

def liveC4t5 : Location :=
  { id := "c4a", room_id := "r1", user_id := "u1", user_name := "A",
    latitude := 40, longitude := -3, timestamp := 5, is_custom_marker := false }

def liveC4t7 : Location :=
  { id := "c4b", room_id := "r1", user_id := "u1", user_name := "A",
    latitude := 41, longitude := -4, timestamp := 7, is_custom_marker := false }

/-- Room "Trip" owned by user "owner", with one joined guest and one stored
location (for claims C5 and C6). -/
def roomTrip : Room := { id := "r1", name := "Trip", code := "ABC123", created_by := "owner" }

def memberTrip : Membership := { room_id := "r1", user_id := "guest" }

def locTrip : Location :=
  { id := "L1", room_id := "r1", user_id := "owner", user_name := "O",
    latitude := 1, longitude := 2, timestamp := 3, is_custom_marker := false }

def dbTrip : DB := { rooms := [roomTrip], memberships := [memberTrip], locations := [locTrip] }

/-- Room reachable by code "ABC123" (for claim C7). -/
def room7 : Room := { id := "r7", name := "T", code := "ABC123", created_by := "o7" }

def db7 : DB := { rooms := [room7], memberships := [], locations := [] }

/-- Store already holding a room whose code is the one-character string "5" (for
claim C8). -/
def db8 : DB :=
  { rooms := [{ id := "r8", name := "T", code := "5", created_by := "o8" }],
    memberships := [], locations := [] }

/-- Store already holding one live-position row for (r9, u9) (for claim C9). -/
def liveRow9 : Location :=
  { id := "L9", room_id := "r9", user_id := "u9", user_name := "N",
    latitude := 1, longitude := 1, timestamp := 1, is_custom_marker := false }

def db9 : DB := { rooms := [], memberships := [], locations := [liveRow9] }

/-- Empty store (for claim C10). -/
def db10 : DB := { rooms := [], memberships := [], locations := [] }
theorem find?_filter_of_imp {α : Type} (l : List α) (q p : α → Bool)
    (h : ∀ a, p a = true → q a = true) : (l.filter q).find? p = l.find? p := by
  induction l with
  | nil => rfl
  | cons a l ih =>
    by_cases hq : q a = true
    · rw [List.filter_cons_of_pos hq]
      by_cases hp : p a = true
      · rw [List.find?_cons_of_pos _ hp, List.find?_cons_of_pos _ hp]
      · rw [List.find?_cons_of_neg _ hp, List.find?_cons_of_neg _ hp, ih]
    · have hp : ¬ p a = true := fun hpa => hq (h a hpa)
      rw [List.filter_cons_of_neg (by simpa using hq), List.find?_cons_of_neg _ hp, ih]

theorem userFind_append (acc l2 : List Location) (u : String) :
    userFind (acc ++ l2) u = (userFind acc u).or (userFind l2 u) := by
  simp [userFind, List.find?_append]

theorem userFind_singleton (x : Location) (u : String) :
    userFind [x] u = if x.user_id = u then some x else none := by
  simp [userFind, List.find?_singleton]

theorem userFind_eq_none (acc : List Location) (u : String) :
    userFind acc u = none ↔ ∀ a ∈ acc, a.user_id ≠ u := by
  simp [userFind, List.find?_eq_none]

theorem userFind_mem {acc : List Location} {u : String} {f : Location}
    (h : userFind acc u = some f) : f ∈ acc :=
  List.mem_of_find?_eq_some h

theorem userFind_user {acc : List Location} {u : String} {f : Location}
    (h : userFind acc u = some f) : f.user_id = u := by
  have := List.find?_some h
  simpa using this

theorem userFind_filter_ne (acc : List Location) {u v : String} (hne : v ≠ u) :
    userFind (acc.filter (fun loc => loc.user_id != u)) v = userFind acc v := by
  refine find?_filter_of_imp acc _ _ ?_
  intro a ha
  have : a.user_id = v := by simpa using ha
  simp [this, hne]

theorem userFind_filter_self (acc : List Location) (u : String) :
    userFind (acc.filter (fun loc => loc.user_id != u)) u = none := by
  rw [userFind_eq_none]
  intro a ha
  have := (List.mem_filter.mp ha).2
  simpa using this

theorem dedupInv_nil : DedupInv [] [] := by
  constructor <;> simp [atMostOneLivePerUser, userFind]

theorem dedupInv_step {processed acc : List Location} (x : Location)
    (h : DedupInv processed acc) : DedupInv (processed ++ [x]) (dedupStep acc x) := by
  by_cases hc : x.is_custom_marker = true
  · -- custom-marker branch: x is appended unchanged
    rw [dedupStep, if_pos hc]
    constructor
    · intro a ha
      rcases List.mem_append.mp ha with h1 | h1
      · exact List.mem_append.mpr (Or.inl (h.sub a h1))
      · exact List.mem_append.mpr (Or.inr h1)
    · refine List.pairwise_append.mpr ⟨h.uniq, List.pairwise_singleton _ _, ?_⟩
      intro a _ b hb
      rcases List.mem_singleton.mp hb with rfl
      intro _ hblive
      rw [hc] at hblive
      cases hblive
    · intro a ha halive
      rcases List.mem_append.mp ha with h1 | h1
      · rw [userFind_append, h.firstOfLive a h1 halive]
        rfl
      · rcases List.mem_singleton.mp h1 with rfl
        rw [hc] at halive
        cases halive
    · intro u f hf r hr hrlive hru
      rw [userFind_append] at hf
      rcases List.mem_append.mp hr with h1 | h1
      · cases hacc : userFind acc u with
        | some g =>
            rw [hacc] at hf
            cases hf
            exact h.maxOfFound u f hacc r h1 hrlive hru
        | none =>
            exfalso
            have := h.coversLive u ⟨r, h1, hrlive, hru⟩
            rw [hacc] at this
            cases this
      · rcases List.mem_singleton.mp h1 with rfl
        rw [hc] at hrlive
        cases hrlive
    · intro u hu
      rcases hu with ⟨r, hr, hrlive, hru⟩
      rcases List.mem_append.mp hr with h1 | h1
      · have := h.coversLive u ⟨r, h1, hrlive, hru⟩
        rw [userFind_append]
        cases hacc : userFind acc u with
        | some g => rfl
        | none => rw [hacc] at this; cases this
      · rcases List.mem_singleton.mp h1 with rfl
        rw [hc] at hrlive
        cases hrlive
  · -- live-position branch
    have hlive : x.is_custom_marker = false := by
      cases hx : x.is_custom_marker
      · rfl
      · exact absurd hx hc
    rw [dedupStep, if_neg hc]
    cases hfind : acc.find? (fun loc => loc.user_id == x.user_id) with
    | none =>
        have hfindu : userFind acc x.user_id = none := hfind
        constructor
        · intro a ha
          rcases List.mem_append.mp ha with h1 | h1
          · exact List.mem_append.mpr (Or.inl (h.sub a h1))
          · exact List.mem_append.mpr (Or.inr h1)
        · refine List.pairwise_append.mpr ⟨h.uniq, List.pairwise_singleton _ _, ?_⟩
          intro a ha b hb
          rcases List.mem_singleton.mp hb with rfl
          intro halive _ hab
          have := h.firstOfLive a ha halive
          rw [hab] at this
          rw [hfindu] at this
          cases this
        · intro a ha halive
          rcases List.mem_append.mp ha with h1 | h1
          · rw [userFind_append, h.firstOfLive a h1 halive]
            rfl
          · rcases List.mem_singleton.mp h1 with rfl
            rw [userFind_append, hfindu, Option.none_or, userFind_singleton, if_pos rfl]
        · intro u f hf r hr hrlive hru
          rw [userFind_append] at hf
          rcases List.mem_append.mp hr with h1 | h1
          · cases hacc : userFind acc u with
            | some g =>
                rw [hacc] at hf
                cases hf
                exact h.maxOfFound u f hacc r h1 hrlive hru
            | none =>
                exfalso
                have := h.coversLive u ⟨r, h1, hrlive, hru⟩
                rw [hacc] at this
                cases this
          · rcases List.mem_singleton.mp h1 with rfl
            rw [← hru, hfindu, Option.none_or, userFind_singleton, if_pos rfl] at hf
            cases hf
            exact Nat.le_refl _
        · intro u hu
          rcases hu with ⟨r, hr, hrlive, hru⟩
          rw [userFind_append]
          rcases List.mem_append.mp hr with h1 | h1
          · have := h.coversLive u ⟨r, h1, hrlive, hru⟩
            cases hacc : userFind acc u with
            | some g => rfl
            | none => rw [hacc] at this; cases this
          · rcases List.mem_singleton.mp h1 with rfl
            rw [← hru, hfindu, Option.none_or, userFind_singleton, if_pos rfl]
            rfl
    | some f =>
        have hfindu : userFind acc x.user_id = some f := hfind
        dsimp only
        by_cases ht : f.timestamp < x.timestamp
        · rw [if_pos ht]
          constructor
          · intro a ha
            rcases List.mem_append.mp ha with h1 | h1
            · exact List.mem_append.mpr (Or.inl (h.sub a (List.mem_of_mem_filter h1)))
            · exact List.mem_append.mpr (Or.inr h1)
          · refine List.pairwise_append.mpr
              ⟨h.uniq.sublist (List.filter_sublist acc), List.pairwise_singleton _ _, ?_⟩
            intro a ha b hb
            rcases List.mem_singleton.mp hb with rfl
            intro _ _ hab
            have := (List.mem_filter.mp ha).2
            rw [hab] at this
            simp at this
          · intro a ha halive
            rcases List.mem_append.mp ha with h1 | h1
            · have hane : a.user_id ≠ x.user_id := by
                have := (List.mem_filter.mp h1).2
                simpa using this
              rw [userFind_append, userFind_filter_ne acc hane,
                h.firstOfLive a (List.mem_of_mem_filter h1) halive]
              rfl
            · rcases List.mem_singleton.mp h1 with rfl
              rw [userFind_append, userFind_filter_self, Option.none_or,
                userFind_singleton, if_pos rfl]
          · intro u g hg r hr hrlive hru
            rw [userFind_append] at hg
            by_cases hxu : u = x.user_id
            · subst hxu
              rw [userFind_filter_self, Option.none_or, userFind_singleton, if_pos rfl] at hg
              cases hg
              rcases List.mem_append.mp hr with h1 | h1
              · have := h.maxOfFound x.user_id f hfindu r h1 hrlive hru
                omega
              · rcases List.mem_singleton.mp h1 with rfl
                exact Nat.le_refl _
            · rw [userFind_filter_ne acc (fun hx2 => hxu hx2)] at hg
              rcases List.mem_append.mp hr with h1 | h1
              · cases hacc : userFind acc u with
                | some g2 =>
                    rw [hacc] at hg
                    cases hg
                    exact h.maxOfFound u g hacc r h1 hrlive hru
                | none =>
                    exfalso
                    have := h.coversLive u ⟨r, h1, hrlive, hru⟩
                    rw [hacc] at this
                    cases this
              · rcases List.mem_singleton.mp h1 with rfl
                exact absurd hru.symm hxu
          · intro u hu
            rcases hu with ⟨r, hr, hrlive, hru⟩
            rw [userFind_append]
            by_cases hxu : u = x.user_id
            · subst hxu
              rw [userFind_filter_self, Option.none_or, userFind_singleton, if_pos rfl]
              rfl
            · rw [userFind_filter_ne acc (fun hx2 => hxu hx2)]
              rcases List.mem_append.mp hr with h1 | h1
              · have := h.coversLive u ⟨r, h1, hrlive, hru⟩
                cases hacc : userFind acc u with
                | some g => rfl
                | none => rw [hacc] at this; cases this
              · rcases List.mem_singleton.mp h1 with rfl
                exact absurd hru.symm hxu
        · rw [if_neg ht]
          constructor
          · intro a ha
            exact List.mem_append.mpr (Or.inl (h.sub a ha))
          · exact h.uniq
          · exact fun a ha halive => h.firstOfLive a ha halive
          · intro u g hg r hr hrlive hru
            rcases List.mem_append.mp hr with h1 | h1
            · exact h.maxOfFound u g hg r h1 hrlive hru
            · rcases List.mem_singleton.mp h1 with rfl
              subst hru
              rw [hfindu] at hg
              cases hg
              omega
          · intro u hu
            rcases hu with ⟨r, hr, hrlive, hru⟩
            rcases List.mem_append.mp hr with h1 | h1
            · exact h.coversLive u ⟨r, h1, hrlive, hru⟩
            · rcases List.mem_singleton.mp h1 with rfl
              rw [← hru, hfindu]
              rfl

theorem dedupInv_foldl_aux (xs : List Location) :
    ∀ processed acc, DedupInv processed acc →
      DedupInv (processed ++ xs) (xs.foldl dedupStep acc) := by
  induction xs with
  | nil =>
      intro p a h
      simpa using h
  | cons x xs ih =>
      intro p a h
      have h2 := ih (p ++ [x]) (dedupStep a x) (dedupInv_step x h)
      have e : (p ++ [x]) ++ xs = p ++ x :: xs := by simp
      rw [e] at h2
      exact h2

theorem dedupInv_filteredLocations (xs : List Location) :
    DedupInv xs (filteredLocations xs) := by
  have h2 := dedupInv_foldl_aux xs [] [] dedupInv_nil
  simpa [filteredLocations] using h2

theorem filteredLocations_append (xs : List Location) (x : Location) :
    filteredLocations (xs ++ [x]) = dedupStep (filteredLocations xs) x := by
  simp [filteredLocations, List.foldl_append]

theorem visibleIn_append_custom {x : Location} (hc : x.is_custom_marker = true)
    (xs : List Location) (r : Location) :
    visibleIn (xs ++ [x]) r ↔ visibleIn xs r ∨ r = x := by
  constructor
  · rintro ⟨hmem, hrest⟩
    by_cases hrx : r = x
    · exact Or.inr hrx
    · have hrxs : r ∈ xs := by
        rcases List.mem_append.mp hmem with h1 | h1
        · exact h1
        · exact absurd (List.mem_singleton.mp h1) hrx
      refine Or.inl ⟨hrxs, ?_⟩
      rcases hrest with h2 | ⟨hrl, h2⟩
      · exact Or.inl h2
      · exact Or.inr ⟨hrl, fun s hs => h2 s (List.mem_append.mpr (Or.inl hs))⟩
  · rintro (⟨hmem, hrest⟩ | rfl)
    · refine ⟨List.mem_append.mpr (Or.inl hmem), ?_⟩
      rcases hrest with h2 | ⟨hrl, h2⟩
      · exact Or.inl h2
      · refine Or.inr ⟨hrl, ?_⟩
        intro s hs hsl hsu hsr
        rcases List.mem_append.mp hs with h1 | h1
        · exact h2 s h1 hsl hsu hsr
        · rcases List.mem_singleton.mp h1 with rfl
          rw [hc] at hsl
          cases hsl
    · exact ⟨List.mem_append.mpr (Or.inr (by simp)), Or.inl hc⟩

theorem mem_filteredLocations_iff (xs : List Location) :
    xs.Nodup → kindsSeparated xs → liveTimesInjective xs → ∀ r : Location,
      (r ∈ filteredLocations xs ↔ visibleIn xs r) := by
  induction xs using List.reverseRecOn with
  | nil =>
      intro _ _ _ r
      simp [filteredLocations, visibleIn]
  | append_singleton xs x ih =>
      intro hnd hk hi r
      have hxnotin : x ∉ xs := by
        have hd := List.disjoint_of_nodup_append hnd
        intro hxx
        exact hd hxx (by simp)
      have hndxs : xs.Nodup := hnd.of_append_left
      have hkxs : kindsSeparated xs := fun a ha b hb =>
        hk a (List.mem_append.mpr (Or.inl ha)) b (List.mem_append.mpr (Or.inl hb))
      have hixs : liveTimesInjective xs := fun a ha b hb =>
        hi a (List.mem_append.mpr (Or.inl ha)) b (List.mem_append.mpr (Or.inl hb))
      have IH := ih hndxs hkxs hixs
      have hInv := dedupInv_filteredLocations xs
      have hxmem : x ∈ xs ++ [x] := List.mem_append.mpr (Or.inr (by simp))
      rw [filteredLocations_append]
      by_cases hc : x.is_custom_marker = true
      · rw [dedupStep, if_pos hc, List.mem_append, List.mem_singleton, IH r,
          visibleIn_append_custom hc]
      · have hlive : x.is_custom_marker = false := by
          cases hx : x.is_custom_marker
          · rfl
          · exact absurd hx hc
        rw [dedupStep, if_neg hc]
        cases hfind : (filteredLocations xs).find? (fun loc => loc.user_id == x.user_id) with
        | none =>
            have hfindu : userFind (filteredLocations xs) x.user_id = none := hfind
            have hnou : ∀ a ∈ xs, a.user_id ≠ x.user_id := by
              intro a ha hau
              have halive : a.is_custom_marker = false := by
                have := hk a (List.mem_append.mpr (Or.inl ha)) x hxmem hau
                rw [this, hlive]
              have := hInv.coversLive x.user_id ⟨a, ha, halive, hau⟩
              rw [hfindu] at this
              cases this
            constructor
            · intro hr
              rcases List.mem_append.mp hr with h1 | h1
              · have hv := (IH r).mp h1
                have hrxs : r ∈ xs := hv.1
                refine ⟨List.mem_append.mpr (Or.inl hrxs), ?_⟩
                rcases hv.2 with h2 | ⟨hrl, h2⟩
                · exact Or.inl h2
                · refine Or.inr ⟨hrl, ?_⟩
                  intro s hs hsl hsu hsr
                  rcases List.mem_append.mp hs with hs1 | hs1
                  · exact h2 s hs1 hsl hsu hsr
                  · rcases List.mem_singleton.mp hs1 with rfl
                    rw [hsu] at hnou
                    exact absurd rfl (hnou r hrxs)
              · rcases List.mem_singleton.mp h1 with rfl
                refine ⟨hxmem, Or.inr ⟨hlive, ?_⟩⟩
                intro s hs hsl hsu hsr
                rcases List.mem_append.mp hs with hs1 | hs1
                · exact absurd hsu (hnou s hs1)
                · exact absurd (List.mem_singleton.mp hs1) hsr
            · rintro ⟨hmem, hrest⟩
              by_cases hrx : r = x
              · subst hrx
                exact List.mem_append.mpr (Or.inr (by simp))
              · have hrxs : r ∈ xs := by
                  rcases List.mem_append.mp hmem with h1 | h1
                  · exact h1
                  · exact absurd (List.mem_singleton.mp h1) hrx
                refine List.mem_append.mpr (Or.inl ((IH r).mpr ⟨hrxs, ?_⟩))
                rcases hrest with h2 | ⟨hrl, h2⟩
                · exact Or.inl h2
                · exact Or.inr ⟨hrl, fun s hs => h2 s (List.mem_append.mpr (Or.inl hs))⟩
        | some f =>
            have hfindu : userFind (filteredLocations xs) x.user_id = some f := hfind
            have hfacc : f ∈ filteredLocations xs := userFind_mem hfindu
            have hfxs : f ∈ xs := hInv.sub f hfacc
            have hfu : f.user_id = x.user_id := userFind_user hfindu
            have hflive : f.is_custom_marker = false := by
              have := hk f (List.mem_append.mpr (Or.inl hfxs)) x hxmem hfu
              rw [this, hlive]
            have hfne : f ≠ x := fun hfx => hxnotin (hfx ▸ hfxs)
            have hmax : ∀ s ∈ xs, s.is_custom_marker = false → s.user_id = x.user_id →
                s.timestamp ≤ f.timestamp := fun s hs hsl hsu =>
              hInv.maxOfFound x.user_id f hfindu s hs hsl hsu
            dsimp only
            by_cases ht : f.timestamp < x.timestamp
            · rw [if_pos ht]
              constructor
              · intro hr
                rcases List.mem_append.mp hr with h1 | h1
                · have hrucc := (List.mem_filter.mp h1).2
                  have hru : r.user_id ≠ x.user_id := by simpa using hrucc
                  have hracc : r ∈ filteredLocations xs := List.mem_of_mem_filter h1
                  have hv := (IH r).mp hracc
                  refine ⟨List.mem_append.mpr (Or.inl hv.1), ?_⟩
                  rcases hv.2 with h2 | ⟨hrl, h2⟩
                  · exact Or.inl h2
                  · refine Or.inr ⟨hrl, ?_⟩
                    intro s hs hsl hsu hsr
                    rcases List.mem_append.mp hs with hs1 | hs1
                    · exact h2 s hs1 hsl hsu hsr
                    · rcases List.mem_singleton.mp hs1 with rfl
                      exact absurd hsu.symm hru
                · rcases List.mem_singleton.mp h1 with rfl
                  refine ⟨hxmem, Or.inr ⟨hlive, ?_⟩⟩
                  intro s hs hsl hsu hsr
                  rcases List.mem_append.mp hs with hs1 | hs1
                  · exact Nat.lt_of_le_of_lt (hmax s hs1 hsl hsu) ht
                  · exact absurd (List.mem_singleton.mp hs1) hsr
              · rintro ⟨hmem, hrest⟩
                by_cases hrx : r = x
                · subst hrx
                  exact List.mem_append.mpr (Or.inr (by simp))
                · have hrxs : r ∈ xs := by
                    rcases List.mem_append.mp hmem with h1 | h1
                    · exact h1
                    · exact absurd (List.mem_singleton.mp h1) hrx
                  have hracc : r ∈ filteredLocations xs := by
                    refine (IH r).mpr ⟨hrxs, ?_⟩
                    rcases hrest with h2 | ⟨hrl, h2⟩
                    · exact Or.inl h2
                    · exact Or.inr ⟨hrl, fun s hs => h2 s (List.mem_append.mpr (Or.inl hs))⟩
                  have hru : r.user_id ≠ x.user_id := by
                    intro hru
                    have hrl : r.is_custom_marker = false := by
                      have := hk r (List.mem_append.mpr (Or.inl hrxs)) x hxmem hru
                      rw [this, hlive]
                    rcases hrest with h2 | ⟨_, h2⟩
                    · rw [hrl] at h2
                      cases h2
                    · have hxlt : x.timestamp < r.timestamp :=
                        h2 x hxmem hlive hru.symm (fun hxr => hrx hxr.symm)
                      have hrle : r.timestamp ≤ f.timestamp := hmax r hrxs hrl hru
                      omega
                  refine List.mem_append.mpr (Or.inl (List.mem_filter.mpr ⟨hracc, ?_⟩))
                  simpa using hru
            · rw [if_neg ht]
              constructor
              · intro hr
                have hv := (IH r).mp hr
                refine ⟨List.mem_append.mpr (Or.inl hv.1), ?_⟩
                rcases hv.2 with h2 | ⟨hrl, h2⟩
                · exact Or.inl h2
                · refine Or.inr ⟨hrl, ?_⟩
                  intro s hs hsl hsu hsr
                  rcases List.mem_append.mp hs with hs1 | hs1
                  · exact h2 s hs1 hsl hsu hsr
                  · rcases List.mem_singleton.mp hs1 with rfl
                    have hrfind := hInv.firstOfLive r hr hrl
                    rw [hsu] at hfindu
                    rw [hrfind] at hfindu
                    injection hfindu with h3
                    subst h3
                    have hrxs : r ∈ xs := hInv.sub r hr
                    rcases Nat.eq_or_lt_of_le (Nat.le_of_not_lt ht) with heq | hlt
                    · exfalso
                      have hreq := hi r (List.mem_append.mpr (Or.inl hrxs)) s hxmem
                        hrl hlive hsu.symm heq.symm
                      exact hxnotin (hreq ▸ hrxs)
                    · exact hlt
              · rintro ⟨hmem, hrest⟩
                by_cases hrx : r = x
                · subst hrx
                  exfalso
                  rcases hrest with h2 | ⟨hrl, h2⟩
                  · rw [hlive] at h2
                    cases h2
                  · have := h2 f (List.mem_append.mpr (Or.inl hfxs)) hflive hfu hfne
                    omega
                · have hrxs : r ∈ xs := by
                    rcases List.mem_append.mp hmem with h1 | h1
                    · exact h1
                    · exact absurd (List.mem_singleton.mp h1) hrx
                  refine (IH r).mpr ⟨hrxs, ?_⟩
                  rcases hrest with h2 | ⟨hrl, h2⟩
                  · exact Or.inl h2
                  · exact Or.inr ⟨hrl, fun s hs => h2 s (List.mem_append.mpr (Or.inl hs))⟩

theorem visibleIn_of_perm {xs ys : List Location} (hperm : xs.Perm ys) {r : Location}
    (h : visibleIn xs r) : visibleIn ys r := by
  rcases h with ⟨hm, hrest⟩
  refine ⟨hperm.mem_iff.mp hm, ?_⟩
  rcases hrest with h2 | ⟨hl, h2⟩
  · exact Or.inl h2
  · exact Or.inr ⟨hl, fun s hs => h2 s (hperm.mem_iff.mpr hs)⟩

theorem handleDeleteRoom_some_eq (db : DB) (rid uid : String)
    (hrid : rid ≠ "") (huid : uid ≠ "") :
    handleDeleteRoom db (some rid) none uid =
      ({ db with
          locations := db.locations.filter (fun l => l.room_id != rid),
          rooms := db.rooms.filter (fun r => r.id != rid) }, .deleted) := by
  simp [handleDeleteRoom, hrid, huid]

theorem handleJoinRoom_joined_eq (db : DB) (code uid : String) (room : Room)
    (hfil : db.rooms.filter (fun r => r.code == jsToUpper code) = [room])
    (hcode : jsTrim code ≠ "") :
    handleJoinRoom db code uid =
      ({ db with memberships := db.memberships ++ [{ room_id := room.id, user_id := uid }] },
        .joined room) := by
  unfold handleJoinRoom
  rw [if_neg hcode, hfil]

/-- Claim C1: for every input list of Location records, the visible marker set
produced by the projection contains at most one live-position (non-custom)
marker per user_id, and each live-position marker it contains for a user is
a record of the input carrying the maximum timestamp among the live-
position records of that user in the input. -/
theorem projection_at_most_one_live_and_latest (xs : List Location) :
    atMostOneLivePerUser (filteredLocations xs) ∧
    ∀ a ∈ filteredLocations xs, a.is_custom_marker = false →
      a ∈ xs ∧ ∀ r ∈ xs, r.is_custom_marker = false → r.user_id = a.user_id →
        r.timestamp ≤ a.timestamp := by
  have h := dedupInv_filteredLocations xs
  refine ⟨h.uniq, ?_⟩
  intro a ha halive
  refine ⟨h.sub a ha, ?_⟩
  intro r hr hrlive hru
  exact h.maxOfFound a.user_id a (h.firstOfLive a ha halive) r hr hrlive hru

/-- Witness for claim C1 at a concrete input: two live reports of user u1 with
timestamps 5 and 9; the projection keeps the t = 9 record and it dominates
every same-user live record of the input. -/
theorem projection_at_most_one_live_and_latest_witness :
    liveU1t9 ∈ filteredLocations [liveU1t5, liveU1t9] ∧
    liveU1t9.is_custom_marker = false ∧
    (liveU1t9 ∈ [liveU1t5, liveU1t9] ∧
      ∀ r ∈ [liveU1t5, liveU1t9], r.is_custom_marker = false →
        r.user_id = liveU1t9.user_id → r.timestamp ≤ liveU1t9.timestamp) :=
  ⟨by decide, rfl,
    (projection_at_most_one_live_and_latest [liveU1t5, liveU1t9]).2 liveU1t9
      (by decide) rfl⟩

/-- Claim C2 (code bug): the claim says every custom marker appears unmodified
in the projection, but the dedup filter matches on user_id alone, so the
newer live record of user u1 deletes the custom marker owned by the same user from the
visible set. -/
theorem custom_marker_destroyed_by_newer_live :
    filteredLocations [customC2, liveC2] = [liveC2] ∧
    customC2 ∉ filteredLocations [customC2, liveC2] := by
  refine ⟨rfl, by decide⟩

/-- Claim C3 (counterexample): the two orders of the same two records project to
different visible sets, so the projection is not permutation-invariant. -/
theorem projection_not_permutation_invariant :
    List.Perm [liveC3, customC3] [customC3, liveC3] ∧
    liveC3 ∈ filteredLocations [liveC3, customC3] ∧
    liveC3 ∉ filteredLocations [customC3, liveC3] := by
  refine ⟨by decide, by decide, by decide⟩

/-- Claim C3 as amended: recomputation on a fixed list is deterministic (the
projection is a pure function), and the visible set is permutation-invariant
provided no user owns records of both kinds, per-user live timestamps are
distinct and the list has no duplicate records. -/
theorem projection_perm_invariant_of_separated (xs ys : List Location)
    (hperm : xs.Perm ys) (hnd : xs.Nodup) (hk : kindsSeparated xs)
    (hi : liveTimesInjective xs) (r : Location) :
    r ∈ filteredLocations xs ↔ r ∈ filteredLocations ys := by
  have hndy : ys.Nodup := hperm.nodup_iff.mp hnd
  have hky : kindsSeparated ys := fun a ha b hb =>
    hk a (hperm.mem_iff.mpr ha) b (hperm.mem_iff.mpr hb)
  have hiy : liveTimesInjective ys := fun a ha b hb =>
    hi a (hperm.mem_iff.mpr ha) b (hperm.mem_iff.mpr hb)
  rw [mem_filteredLocations_iff xs hnd hk hi r,
    mem_filteredLocations_iff ys hndy hky hiy r]
  exact ⟨visibleIn_of_perm hperm, visibleIn_of_perm hperm.symm⟩

/-- Witness for the amended claim C3 at a concrete input: swapping two live
records of distinct users leaves membership in the visible set unchanged. -/
theorem projection_perm_invariant_of_separated_witness :
    permLiveB ∈ filteredLocations [permLiveA, permLiveB] ↔
      permLiveB ∈ filteredLocations [permLiveB, permLiveA] :=
  projection_perm_invariant_of_separated [permLiveA, permLiveB] [permLiveB, permLiveA]
    (by decide) (by decide) (by decide) (by decide) permLiveB

/-- Claim C4 (code bug): after live upserts with timestamps t1 = 5 < t2 = 7 of
user u1, the projection should reflect the t2 coordinates, but a custom
marker of the same user with timestamp 10 blocks both live records in either
order, so no live-position marker for u1 is visible at all. -/
theorem newest_live_blocked_by_custom_marker :
    filteredLocations [customC4, liveC4t5, liveC4t7] = [customC4] ∧
    filteredLocations [customC4, liveC4t7, liveC4t5] = [customC4] := by
  refine ⟨rfl, rfl⟩

/-- Claim C5 (counterexample): deleteRoom requested by "intruder", who is not
the owner of room r1, does not fail - it deletes the room and its locations. -/
theorem deleteRoom_by_non_owner_mutates :
    "intruder" ≠ roomTrip.created_by ∧
    (handleDeleteRoom dbTrip (some "r1") none "intruder").1.rooms = [] ∧
    (handleDeleteRoom dbTrip (some "r1") none "intruder").1.locations = [] ∧
    (handleDeleteRoom dbTrip (some "r1") none "intruder").2 = .deleted := by
  refine ⟨by decide, rfl, rfl, rfl⟩

/-- Claim C5 as amended: handleDeleteRoom performs no requester authorization at
all; for every store and every non-empty requester id it removes the room
and its locations and reports success, leaving memberships untouched.  The
owner-only restriction exists only in the UI, which renders the delete
button solely when created_by equals the session user. -/
theorem deleteRoom_has_no_authorization_check (db : DB) (rid uid : String)
    (hrid : rid ≠ "") (huid : uid ≠ "") :
    (handleDeleteRoom db (some rid) none uid).1.rooms =
      db.rooms.filter (fun r => r.id != rid) ∧
    (handleDeleteRoom db (some rid) none uid).1.locations =
      db.locations.filter (fun l => l.room_id != rid) ∧
    (handleDeleteRoom db (some rid) none uid).1.memberships = db.memberships ∧
    (handleDeleteRoom db (some rid) none uid).2 = .deleted := by
  rw [handleDeleteRoom_some_eq db rid uid hrid huid]
  exact ⟨rfl, rfl, rfl, rfl⟩

/-- Witness for the amended claim C5 at a concrete input. -/
theorem deleteRoom_has_no_authorization_check_witness :
    (handleDeleteRoom dbTrip (some "r1") none "stranger").1.memberships =
      dbTrip.memberships ∧
    (handleDeleteRoom dbTrip (some "r1") none "stranger").2 = .deleted :=
  ⟨(deleteRoom_has_no_authorization_check dbTrip "r1" "stranger"
      (by decide) (by decide)).2.2.1,
    (deleteRoom_has_no_authorization_check dbTrip "r1" "stranger"
      (by decide) (by decide)).2.2.2⟩

/-- Claim C6 (counterexample): the owner deletes room r1, yet the Membership row
of the room survives - handleDeleteRoom never touches room_members. -/
theorem deleteRoom_owner_no_membership_cleanup :
    roomTrip.created_by = "owner" ∧
    (handleDeleteRoom dbTrip (some "r1") none "owner").1.memberships = [memberTrip] ∧
    (handleDeleteRoom dbTrip (some "r1") none "owner").1.rooms = [] := by
  refine ⟨rfl, rfl, rfl⟩

/-- Claim C6 as amended: deleteRoom performed by the owner removes every
Location record scoped to the room and the Room itself, but leaves every
Membership row unchanged. -/
theorem deleteRoom_by_owner_scope (db : DB) (rid uid : String) (room : Room)
    (_hroom : room ∈ db.rooms) (_hid : room.id = rid) (_hauth : room.created_by = uid)
    (hrid : rid ≠ "") (huid : uid ≠ "") :
    (∀ l ∈ (handleDeleteRoom db (some rid) none uid).1.locations, l.room_id ≠ rid) ∧
    (∀ r ∈ (handleDeleteRoom db (some rid) none uid).1.rooms, r.id ≠ rid) ∧
    (handleDeleteRoom db (some rid) none uid).1.memberships = db.memberships := by
  rw [handleDeleteRoom_some_eq db rid uid hrid huid]
  refine ⟨?_, ?_, rfl⟩
  · intro l hl
    have := (List.mem_filter.mp hl).2
    simpa using this
  · intro r hr
    have := (List.mem_filter.mp hr).2
    simpa using this

/-- Witness for the amended claim C6 at a concrete input. -/
theorem deleteRoom_by_owner_scope_witness :
    (handleDeleteRoom dbTrip (some "r1") none "owner").1.memberships =
      dbTrip.memberships :=
  (deleteRoom_by_owner_scope dbTrip "r1" "owner" roomTrip (by decide) rfl rfl
    (by decide) (by decide)).2.2

/-- Claim C7 (counterexample): joining room r7 twice with the same user succeeds
twice and leaves two identical Membership rows, not one. -/
theorem joinRoom_rejoin_duplicates_membership :
    ((handleJoinRoom (handleJoinRoom db7 "abc123" "u9").1 "abc123" "u9").2 =
      .joined room7) ∧
    ((handleJoinRoom (handleJoinRoom db7 "abc123" "u9").1 "abc123" "u9").1.memberships =
      [{ room_id := "r7", user_id := "u9" }, { room_id := "r7", user_id := "u9" }]) := by
  exact ⟨rfl, rfl⟩

/-- Claim C7 as amended: joinRoom looks the room up by uppercased code and every
successful join - re-joins included - appends exactly one new Membership
row; there is no on-conflict no-op, so membership rows for (room_id,
user_id) duplicate rather than stay unique. -/
theorem joinRoom_appends_one_membership (db : DB) (code uid : String) (room : Room)
    (h : (handleJoinRoom db code uid).2 = .joined room) :
    (handleJoinRoom db code uid).1.memberships =
      db.memberships ++ [{ room_id := room.id, user_id := uid }] ∧
    room ∈ db.rooms ∧ room.code = jsToUpper code := by
  by_cases hcode : jsTrim code = ""
  · unfold handleJoinRoom at h
    rw [if_pos hcode] at h
    cases h
  · cases hfil : db.rooms.filter (fun r => r.code == jsToUpper code) with
    | nil =>
        unfold handleJoinRoom at h
        rw [if_neg hcode, hfil] at h
        cases h
    | cons r rest =>
        cases rest with
        | nil =>
            unfold handleJoinRoom at h
            rw [if_neg hcode, hfil] at h
            dsimp only at h
            cases h
            rw [handleJoinRoom_joined_eq db code uid room hfil hcode]
            have hrmem : room ∈ db.rooms.filter (fun r2 => r2.code == jsToUpper code) := by
              rw [hfil]
              exact List.mem_singleton.mpr rfl
            have hr2 := List.mem_filter.mp hrmem
            refine ⟨rfl, hr2.1, by simpa using hr2.2⟩
        | cons r2 rest2 =>
            unfold handleJoinRoom at h
            rw [if_neg hcode, hfil] at h
            dsimp only at h
            cases h

/-- Witness for the amended claim C7 at a concrete input. -/
theorem joinRoom_appends_one_membership_witness :
    (handleJoinRoom db7 "abc123" "u9").1.memberships =
      db7.memberships ++ [{ room_id := room7.id, user_id := "u9" }] ∧
    room7 ∈ db7.rooms ∧ room7.code = jsToUpper "abc123" :=
  joinRoom_appends_one_membership db7 "abc123" "u9" room7 rfl

/-- Claim C8 (counterexample): the generated candidate code can be shorter than
six characters (the random fraction 0.5 yields the one-character code "5"),
and a uniqueness violation is reported as an immediate error with the store
unchanged - there is no regeneration or retry. -/
theorem roomCode_short_and_create_no_retry :
    (generateRoomCode ['5']).length = 1 ∧
    (handleCreateRoom db8 "Trip" "o8" ['5'] "r9").2 = .conflict ∧
    (handleCreateRoom db8 "Trip" "o8" ['5'] "r9").1 = db8 := by
  exact ⟨rfl, rfl, rfl⟩

/-- Claim C8 as amended: the candidate code has at most six characters, all
drawn from [A-Z0-9], and on a uniqueness violation of the code
handleCreateRoom fails immediately with a conflict error, leaving the store
unchanged. -/
theorem roomCode_at_most_six_uppercase (digits : List Char) (db : DB)
    (roomName uid nid : String) (hd : ∀ c ∈ digits, c ∈ base36Chars)
    (hname : jsTrim roomName ≠ "") :
    (generateRoomCode digits).length ≤ 6 ∧
    (∀ c ∈ generateRoomCode digits, c ∈ upperCodeChars) ∧
    (db.rooms.any (fun r => r.code == (⟨generateRoomCode digits⟩ : String)) = true →
      handleCreateRoom db roomName uid digits nid = (db, .conflict)) := by
  refine ⟨?_, ?_, ?_⟩
  · calc (generateRoomCode digits).length
        = (((randomToString36 digits).drop 2).take 6).length := List.length_map _ _
      _ ≤ 6 := by
          rw [List.length_take]
          exact Nat.min_le_left _ _
  · intro c hc
    rcases List.mem_map.mp hc with ⟨d, hd2, rfl⟩
    have hdrop : d ∈ (randomToString36 digits).drop 2 := List.mem_of_mem_take hd2
    have hdig : d ∈ digits := by
      unfold randomToString36 at hdrop
      by_cases hnil : digits = []
      · rw [if_pos hnil] at hdrop
        simp at hdrop
      · rw [if_neg hnil] at hdrop
        simpa using hdrop
    have hbase : d ∈ base36Chars := hd d hdig
    have hmapfact : ∀ c2 ∈ base36Chars, c2.toUpper ∈ upperCodeChars := by decide
    exact hmapfact d hbase
  · intro hany
    unfold handleCreateRoom
    rw [if_neg hname]
    dsimp only
    rw [if_pos hany]

/-- Witness for the amended claim C8 at a concrete input. -/
theorem roomCode_at_most_six_uppercase_witness :
    (generateRoomCode ['a', 'b', 'c', '1', '2', '3', '4']).length ≤ 6 :=
  (roomCode_at_most_six_uppercase ['a', 'b', 'c', '1', '2', '3', '4'] db8
    "Trip" "o8" "r9" (by decide) (by decide)).1

/-- Claim C9 (counterexample): updateLocation always inserts; reporting a
position for (r9, u9) when one live row already exists leaves two live rows. -/
theorem updateLocation_inserts_second_live_row :
    (liveRowsFor db9 "r9" "u9").length = 1 ∧
    (liveRowsFor (updateLocation db9 "u9" "r9" "N" 2 2 2 "L10").1 "r9" "u9").length = 2 := by
  exact ⟨rfl, rfl⟩

/-- Claim C9 as amended: the geolocation-watcher reporter implements the select-
then-update-or-insert upsert and never grows the number of live rows of a
user beyond one, but updateLocation of dashboard/page.tsx inserts a fresh
row on every report. -/
theorem reporterStep_preserves_single_live_row (db : DB) (rid uid uname : String)
    (lat lng : Int) (now : Nat) (nid : String)
    (h : (liveRowsFor db rid uid).length ≤ 1) :
    (liveRowsFor (reporterStep db rid uid uname lat lng now nid) rid uid).length ≤ 1 := by
  unfold reporterStep
  cases hrows : liveRowsFor db rid uid with
  | nil =>
      dsimp only
      unfold liveRowsFor at hrows ⊢
      dsimp only
      rw [List.filter_append, hrows]
      simp
  | cons e rest =>
      cases rest with
      | nil =>
          dsimp only
          unfold liveRowsFor at hrows ⊢
          dsimp only
          rw [List.filter_map]
          have hcong : db.locations.filter
              ((fun l => l.room_id == rid && l.user_id == uid && l.is_custom_marker == false) ∘
                (fun l => if l.id == e.id then
                  { l with latitude := lat, longitude := lng, timestamp := now } else l)) =
              db.locations.filter
                (fun l => l.room_id == rid && l.user_id == uid && l.is_custom_marker == false) := by
            apply List.filter_congr
            intro a _
            by_cases hid : (a.id == e.id) = true
            · simp [Function.comp, hid]
            · simp [Function.comp, hid]
          rw [hcong, hrows]
          simp
      | cons e2 rest2 =>
          exfalso
          rw [hrows] at h
          simp at h

/-- Witness for the amended claim C9 at a concrete input. -/
theorem reporterStep_preserves_single_live_row_witness :
    (liveRowsFor (reporterStep db9 "r9" "u9" "N" 2 3 4 "L11") "r9" "u9").length ≤ 1 :=
  reporterStep_preserves_single_live_row db9 "r9" "u9" "N" 2 3 4 "L11" (by decide)

/-- Claim C10 (counterexample): requesting a custom-marker add with an empty
name is a silent no-op - the handler returns without reporting any error and
without mutating the store. -/
theorem addMarker_missing_name_silent_noop :
    handleAddMarker db10 "r1" "u1" "N" (some (1, 2)) "" "d" "L1" 5 = (db10, .silentNoop) := by
  exact rfl

/-- Claim C10 as amended: room create and room join either succeed or report an
inspectable error (validation exactly on empty trimmed input), but a marker
add with a missing name or position, and a room delete with a missing room
id or user id, silently return with the store unchanged. -/
theorem mutation_silent_noop_boundary (db : DB)
    (roomName code rid uid uname mname mdesc nid : String)
    (digits : List Char) (lat lng : Int) (now : Nat) :
    ((handleCreateRoom db roomName uid digits nid).2 = .validation ↔ jsTrim roomName = "") ∧
    ((handleJoinRoom db code uid).2 = .validation ↔ jsTrim code = "") ∧
    (jsTrim mname = "" →
      handleAddMarker db rid uid uname (some (lat, lng)) mname mdesc nid now =
        (db, .silentNoop)) ∧
    handleAddMarker db rid uid uname none mname mdesc nid now = (db, .silentNoop) ∧
    handleDeleteRoom db none none uid = (db, .silentNoop) ∧
    handleDeleteRoom db (some rid) none "" = (db, .silentNoop) := by
  refine ⟨?_, ?_, ?_, rfl, rfl, ?_⟩
  · unfold handleCreateRoom
    by_cases hname : jsTrim roomName = ""
    · rw [if_pos hname]
      simpa using hname
    · rw [if_neg hname]
      dsimp only
      by_cases hany : db.rooms.any (fun r => r.code == (⟨generateRoomCode digits⟩ : String)) = true
      · rw [if_pos hany]
        simp [hname]
      · rw [if_neg hany]
        simp [hname]
  · unfold handleJoinRoom
    by_cases hcode : jsTrim code = ""
    · rw [if_pos hcode]
      simpa using hcode
    · rw [if_neg hcode]
      cases hfil : db.rooms.filter (fun r => r.code == jsToUpper code) with
      | nil => simp [hcode]
      | cons r rest =>
          cases rest with
          | nil => simp [hcode]
          | cons r2 rest2 => simp [hcode]
  · intro hmn
    unfold handleAddMarker
    dsimp only
    rw [if_pos hmn]
  · unfold handleDeleteRoom
    dsimp only
    by_cases hrid : rid = ""
    · rw [if_pos hrid]
    · rw [if_neg hrid]
      dsimp only
      rw [if_pos (Or.inr rfl)]

/-- Witness for the amended claim C10 at a concrete input. -/
theorem mutation_silent_noop_boundary_witness :
    handleAddMarker db10 "rw" "uw" "N" (some (1, 2)) " " "d" "Lw" 5 =
      (db10, .silentNoop) :=
  (mutation_silent_noop_boundary db10 "n" "c" "rw" "uw" "N" " " "d" "Lw"
    ['a'] 1 2 5).2.2.1 rfl

end GeoApp
